import Mathlib

/-!
Verification of the model/method code generator of the `balancing` repository
(`tools/generate_models.py`, `tools/generate_client.py`).

Strings are modelled as `List Char` (Lean `String.data`) wherever character-level
reasoning is needed; schema property names are plain `String`s where only name
identity matters.  All regex operations of the source are over ASCII character
classes and are modelled accordingly.
-/

namespace Balancing

/-! ### ASCII character classes used by the source regexes -/

/-- Characters matched by the regex class `[A-Z]`. -/
def isUpperA (c : Char) : Bool := 65 ≤ c.toNat && c.toNat ≤ 90

/-- Characters matched by the regex class `[a-z0-9]` (used by the camelCase rule). -/
def isLowerDigit (c : Char) : Bool :=
  (97 ≤ c.toNat && c.toNat ≤ 122) || (48 ≤ c.toNat && c.toNat ≤ 57)

/-- Characters matched by the regex class `[a-z0-9_]` (valid field-name characters). -/
def isValidLower (c : Char) : Bool := isLowerDigit c || c.toNat = 95

/-- Characters matched by the regex class `[a-zA-Z0-9_]` (valid class-name characters). -/
def isWordChar (c : Char) : Bool := isUpperA c || isLowerDigit c || c.toNat = 95

/-- Characters matched by `str.isdigit` restricted to ASCII, i.e. `[0-9]`. -/
def isDigitA (c : Char) : Bool := 48 ≤ c.toNat && c.toNat ≤ 57

/-- Python `str.lower`, restricted to the ASCII range that the generator's
names live in: maps `A`-`Z` to `a`-`z`, leaves everything else unchanged. -/
def pyLower (c : Char) : Char := if isUpperA c then Char.ofNat (c.toNat + 32) else c

/-! ### List-level models of the string operations used by the sanitizers -/

/-- Python `re.sub(r.([a-z0-9])([A-Z])., r.\1_\2., name)`: insert an underscore
between a lowercase-or-digit character and an uppercase character.  The regex
engine scans left to right without overlap; since the second matched character
is uppercase it can never start a later match, so the pairwise rule below is
exactly the regex behaviour. -/
def camelSub : List Char → List Char
  | [] => []
  | [c] => [c]
  | c1 :: c2 :: rest =>
    if isLowerDigit c1 && isUpperA c2 then c1 :: '_' :: camelSub (c2 :: rest)
    else c1 :: camelSub (c2 :: rest)

/-- Python `re.sub(r"_+", "_", name)`: collapse each run of underscores to one. -/
def collapseU : List Char → List Char
  | [] => []
  | [c] => [c]
  | c1 :: c2 :: rest =>
    if c1 = '_' && c2 = '_' then collapseU (c2 :: rest)
    else c1 :: collapseU (c2 :: rest)

/-- Remove leading underscores (the left half of Python `str.strip("_")`). -/
def stripL : List Char → List Char
  | [] => []
  | c :: r => if c = '_' then stripL r else c :: r

/-- Python `name.strip("_")`: remove leading and trailing underscores. -/
def stripU (l : List Char) : List Char := (stripL (stripL l).reverse).reverse

/-- Python reserved words guarded against in `sanitize_field_name`
(`generate_models.py` lines 245-248); a set, so only membership matters. -/
def python_keywords : List (List Char) :=
  ["from".data, "to".data, "in".data, "is".data, "or".data, "and".data, "not".data,
   "if".data, "else".data, "for".data, "while".data, "def".data, "class".data,
   "return".data, "import".data, "as".data]

/-- Source: `PydanticModelGenerator.sanitize_field_name` (`generate_models.py` lines 225-256):
camelCase to snake_case, lowercase, replace characters outside `[a-z0-9_]`,
append `_` to reserved words, collapse `_` runs, strip `_` from both ends,
fall back to `"field"` when empty. -/
def sanitize_field_name (l : List Char) : List Char :=
  let n1 := camelSub l
  let n2 := n1.map pyLower
  let n3 := n2.map (fun c => if isValidLower c then c else '_')
  let n4 := if n3 ∈ python_keywords then n3 ++ ['_'] else n3
  let n5 := collapseU n4
  let n6 := stripU n5
  if n6 = [] then "field".data else n6

/-- Python `name.split(".")[-1]`: the segment after the last dot (the whole
name when no dot occurs). -/
def lastDotSegment (l : List Char) : List Char :=
  (l.reverse.takeWhile (fun c => c ≠ '.')).reverse

/-- Python `ref_path.split("/")[-1]`: the segment after the last slash. -/
def lastSlashSegment (l : List Char) : List Char :=
  (l.reverse.takeWhile (fun c => c ≠ '/')).reverse

/-- Python `pat in s` on strings: substring containment. -/
def containsSeg (pat l : List Char) : Bool := decide (pat <:+: l)

/-- Python `if name and name[0].isdigit()`: a non-empty name whose first
character is an ASCII digit. -/
def headIsDigit : List Char → Bool
  | [] => false
  | c :: _ => isDigitA c

/-- Wrapper-type suffix detection shared by both class-name sanitizers
(`generate_models.py` lines 194-202, `generate_client.py` lines 153-160). -/
def wrapperSuffix (original_name : List Char) : List Char :=
  if containsSeg "DatasetResponse-1_".data original_name then "_DatasetResponse".data
  else if containsSeg "ResponseWithMetadata-1_".data original_name then
    "_ResponseWithMetadata".data
  else if containsSeg "Response-1_".data original_name
      && containsSeg "-1_".data original_name then "_Response".data
  else []

/-- Core renaming pipeline shared by both class-name sanitizers
(`generate_models.py` lines 204-218): keep the last dot-separated segment,
replace characters outside `[a-zA-Z0-9_]`, collapse underscore runs, prefix
`Model_` when the first character is a digit, strip underscores. -/
def classNameCore (name : List Char) : List Char :=
  let n1 := lastDotSegment name
  let n2 := n1.map (fun c => if isWordChar c then c else '_')
  let n3 := collapseU n2
  let n4 := if headIsDigit n3 then "Model_".data ++ n3 else n3
  stripU n4

/-- Source: `PydanticModelGenerator.sanitize_class_name` (`generate_models.py` lines 176-223).
The optional `origName` models the `original_name` parameter; Python's
`original_name or name` treats both `None` and the empty string as absent. -/
def sanitize_class_name (name : List Char) (origName : Option (List Char)) : List Char :=
  let original_name :=
    match origName with
    | none => name
    | some o => if o = [] then name else o
  let result := classNameCore name ++ wrapperSuffix original_name
  if result = [] then "UnnamedModel".data else result

/-- Source: `ClientCodeGenerator._sanitize_class_name` (`generate_client.py` lines 151-176):
the client-side copy of the class-name sanitizer; wrapper-suffix detection runs
on `name` itself since there is no `original_name` parameter. -/
def client_sanitize_class_name (name : List Char) : List Char :=
  let result := classNameCore name ++ wrapperSuffix name
  if result = [] then "UnnamedModel".data else result

/-! ### MixinClassifier (`_detect_mixins`, `generate_models.py` lines 312-562) -/

/-- Source: `self.field_mixin_map` (`generate_models.py` lines 63-69): multi-field mixin
groups, in dict insertion order. -/
def field_mixin_map : List (List String × String) :=
  [(["settlementDate", "settlementPeriod"], "SettlementFields"),
   (["timeFrom", "timeTo"], "TimeRangeFields"),
   (["levelFrom", "levelTo"], "LevelRangeFields"),
   (["bmUnit", "nationalGridBmUnit"], "BmUnitFields"),
   (["documentId", "documentRevisionNumber"], "DocumentFields")]

/-- Source: `self.single_field_mixin_map` (`generate_models.py` lines 72-86): single-field
mixin groups, in dict insertion order. -/
def single_field_mixin_map : List (String × String) :=
  [("publishTime", "PublishTimeFields"),
   ("startTime", "StartTimeFields"),
   ("dataset", "DatasetFields"),
   ("quantity", "QuantityFields"),
   ("price", "PriceFields"),
   ("volume", "VolumeFields"),
   ("demand", "DemandFields"),
   ("generation", "GenerationFields"),
   ("year", "YearFields"),
   ("week", "WeekFields"),
   ("forecastDate", "ForecastDateFields"),
   ("boundary", "BoundaryFields"),
   ("createdDateTime", "CreatedDateTimeFields")]

/-- Step 1 of `_detect_mixins`: the loop over `field_mixin_map`.  The
accumulator pairs the mixin list with the `fields_to_skip` set (modelled as a
list whose membership is what matters). -/
def comboStep (props : List String) (acc : List String × List String)
    (fm : List String × String) : List String × List String :=
  if fm.1.all (fun f => props.contains f) then (acc.1 ++ [fm.2], acc.2 ++ fm.1) else acc

/-- Step 2 of `_detect_mixins`: the loop over `single_field_mixin_map`, which
checks the evolving `fields_to_skip`. -/
def singleStep (props : List String) (acc : List String × List String)
    (fm : String × String) : List String × List String :=
  if props.contains fm.1 && !acc.2.contains fm.1 then (acc.1 ++ [fm.2], acc.2 ++ [fm.1])
  else acc

/-- Step 3 of `_detect_mixins` (`generate_models.py` lines 342-561): the
validator-only ("behavioral") mixins, appended in source order; they never add
to `fields_to_skip`.  Conditions are membership tests on the property-name set,
except the `settlementDate` and `startTime` ones which also consult the skip
set. -/
def mixinIf (b : Bool) (m : String) : List String := if b then [m] else []

/-- Step 3 of `_detect_mixins` continued: the full ordered sequence of guarded
`mixins.append` statements, one `mixinIf` entry per source `if`. -/
def behavioral_mixins (props skip : List String) : List String := List.flatten
  [mixinIf (props.contains "settlementDate" && !skip.contains "settlementDate") "SettlementDateMixin",
   mixinIf (props.contains "acceptanceNumber") "AcceptanceMixin",
   mixinIf (props.contains "affectedUnit") "AffectedUnitMixin",
   mixinIf (props.contains "assetId") "AssetMixin",
   mixinIf (props.contains "bid" && props.contains "offer") "BidOfferMixin",
   mixinIf (props.contains "bmUnit" || props.contains "nationalGridBmUnit") "BmUnitMixin",
   mixinIf (props.contains "businessType") "BusinessTypeMixin",
   mixinIf (props.contains "normalCapacity" || props.contains "availableCapacity") "CapacityMixin",
   mixinIf (props.contains "createdDateTime") "CreatedDateTimeMixin",
   mixinIf (props.contains "dataset") "DatasetMixin",
   mixinIf (props.contains "eventType" && props.contains "eventStatus") "EventMixin",
   mixinIf (props.contains "eventStartTime" && props.contains "eventEndTime") "EventTimeMixin",
   mixinIf (props.contains "deemedBoFlag" || props.contains "soFlag" || props.contains "storFlag" || props.contains "rrFlag") "FlagsMixin",
   mixinIf (props.contains "flowDirection") "FlowDirectionMixin",
   mixinIf (props.contains "fuelType") "FuelTypeMixin",
   mixinIf (props.contains "leadPartyName") "LeadPartyMixin",
   mixinIf (props.contains "messageHeading" && props.contains "messageType") "MessageMixin",
   mixinIf (props.contains "mrid" || props.contains "mRID") "MridMixin",
   mixinIf (props.contains "pairId") "PairIdMixin",
   mixinIf (props.contains "participantId") "ParticipantMixin",
   mixinIf (props.contains "volume") "VolumeMixin",
   mixinIf (props.contains "cost") "CostMixin",
   mixinIf (props.contains "demand") "DemandMixin",
   mixinIf (props.contains "generation") "GenerationMixin",
   mixinIf (props.contains "margin") "MarginMixin",
   mixinIf (props.contains "surplus") "SurplusMixin",
   mixinIf (props.contains "imbalance") "ImbalanceMixin",
   mixinIf (props.contains "frequency") "FrequencyMixin",
   mixinIf (props.contains "temperature") "TemperatureMixin",
   mixinIf (props.contains "year") "YearMixin",
   mixinIf (props.contains "week") "WeekMixin",
   mixinIf (props.contains "month") "MonthMixin",
   mixinIf (props.contains "forecastDate") "ForecastDateMixin",
   mixinIf (props.contains "boundary") "BoundaryMixin",
   mixinIf (props.contains "outputUsable") "OutputUsableMixin",
   mixinIf (props.contains "biddingZone") "BiddingZoneMixin",
   mixinIf (props.contains "interconnectorName") "InterconnectorMixin",
   mixinIf (props.contains "price") "PriceMixin",
   mixinIf (props.contains "psrType") "PsrTypeMixin",
   mixinIf (props.contains "publishTime") "PublishTimeMixin",
   mixinIf (props.contains "quantity") "QuantityMixin",
   mixinIf (props.contains "revisionNumber") "RevisionMixin",
   mixinIf (props.contains "startTime" && !skip.contains "startTime") "StartTimeMixin"]

/-- Source: `PydanticModelGenerator._detect_mixins` (`generate_models.py` lines 312-562):
returns the ordered mixin list and the claimed (`fields_to_skip`) field names.
`props` is the ordered key list of the schema's property dict. -/
def detect_mixins (props : List String) : List String × List String :=
  let s1 := field_mixin_map.foldl (comboStep props) ([], [])
  let s2 := single_field_mixin_map.foldl (singleStep props) s1
  (s2.1 ++ behavioral_mixins props s2.2, s2.2)

/-- Own (unclaimed) field names of a generated model: the property loop of
`generate_model` (`generate_models.py` lines 625-628) skips every field in
`fields_to_skip` and emits a FieldSpec for each of the rest, in order. -/
def own_field_names (props : List String) : List String :=
  props.filter (fun f => !(detect_mixins props).2.contains f)

/-! ### TypeResolver (`get_python_type`, `generate_models.py` lines 258-310) -/

/-- OpenAPI schema fragment as consumed by `get_python_type`: dollar-ref path,
declared `type`, `format`, `nullable` flag (absent means `False`), and the
`items` child of an array schema (`none` models an absent `items` key, for
which the Python code substitutes the empty dict).  Property maps and other
keys are not consulted by the type resolver. -/
inductive SchemaNode where
  | node (ref : Option (List Char)) (ty : Option String) (fmt : Option String)
      (nullable : Bool) (items : Option SchemaNode)

/-- The `nullable` field of a schema node. -/
def SchemaNode.nullable : SchemaNode → Bool
  | .node _ _ _ b _ => b

/-- Shallow copy with `nullable` forced to `False` (`generate_models.py`
lines 636-639: `field_schema = field_schema.copy(); field_schema['nullable'] = False`). -/
def SchemaNode.withNullableFalse : SchemaNode → SchemaNode
  | .node r t f _ i => .node r t f false i

/-- Source: `self.field_to_enum` (`generate_models.py` lines 89-112) as the mapping it
denotes: field name to enum type name. -/
def field_to_enum : String → Option String
  | "dataset" => some "DatasetEnum"
  | "psrType" => some "PsrtypeEnum"
  | "fuelType" => some "FueltypeEnum"
  | "businessType" => some "BusinesstypeEnum"
  | "messageType" => some "MessagetypeEnum"
  | "eventType" => some "EventtypeEnum"
  | "processType" => some "ProcesstypeEnum"
  | "warningType" => some "WarningtypeEnum"
  | "assetType" => some "AssettypeEnum"
  | "eventStatus" => some "EventstatusEnum"
  | "unavailabilityType" => some "UnavailabilitytypeEnum"
  | "flowDirection" => some "FlowdirectionEnum"
  | "tradeDirection" => some "TradedirectionEnum"
  | "marketAgreementType" => some "MarketagreementtypeEnum"
  | "boundary" => some "BoundaryEnum"
  | "recordType" => some "RecordtypeEnum"
  | "deliveryMode" => some "DeliverymodeEnum"
  | "settlementRunType" => some "SettlementruntypeEnum"
  | "bmUnitType" => some "BmunittypeEnum"
  | "priceDerivationCode" => some "PricederivationcodeEnum"
  | "systemZone" => some "SystemzoneEnum"
  | "amendmentFlag" => some "AmendmentflagEnum"
  | _ => none

/-- Source: `TYPE_MAPPING` (`generate_models.py` lines 19-26) as the mapping it denotes. -/
def type_mapping : String → Option String
  | "string" => some "str"
  | "integer" => some "int"
  | "number" => some "float"
  | "boolean" => some "bool"
  | "array" => some "List"
  | "object" => some "Dict[str, Any]"
  | _ => none

/-- Source: `FORMAT_MAPPING` (`generate_models.py` lines 29-36) as the mapping it denotes. -/
def format_mapping : String → Option String
  | "date" => some "date"
  | "date-time" => some "datetime"
  | "int32" => some "int"
  | "int64" => some "int"
  | "float" => some "float"
  | "double" => some "float"
  | _ => none

/-- Source: `PydanticModelGenerator._get_base_type` (`generate_models.py` lines 300-310):
format mapping first, then type mapping with default type `string` and
fallback `Any`.  The Python `field_name` parameter is unused by the source. -/
def get_base_type (s : SchemaNode) : List Char :=
  match s with
  | .node _ ty fmt _ _ =>
    match fmt.bind format_mapping with
    | some r => r.data
    | none => ((type_mapping (ty.getD "string")).getD "Any").data

/-- Final Optional-wrap of `get_python_type` (`generate_models.py` lines 294-296):
wrap when the field is not required and the hint does not already start with
`Optional`. -/
def wrapFinal (required : Bool) (th : List Char) : List Char :=
  if !required && !(("Optional".data).isPrefixOf th) then
    "Optional[".data ++ th ++ "]".data
  else th

/-- Enum-override test of `get_python_type` line 271: Python
`if field_name and field_name in self.field_to_enum` treats both `None` and
the empty string as absent. -/
def enumOverride (fieldName : Option String) : Option String :=
  match fieldName with
  | none => none
  | some fn => if fn = "" then none else field_to_enum fn

/-- Source: `get_python_type` applied to the empty schema dict with `required=True`, as
reached from the array branch when `items` is absent: the enum override still
applies (the field name is passed through), otherwise the default type
`string` maps to `str`. -/
def emptyItemsType (fieldName : Option String) : List Char :=
  match enumOverride fieldName with
  | some e => e.data
  | none => "str".data

/-- Source: `PydanticModelGenerator.get_python_type` (`generate_models.py` lines 258-298):
enum override, then `$ref`, then arrays (items resolved with `required=True`),
then the nullable-or-optional early return, else the base type; a final wrap
makes non-required hints Optional unless they already are. -/
def get_python_type : SchemaNode → Bool → Option String → List Char
  | .node ref ty fmt nul items, required, fieldName =>
    match enumOverride fieldName with
    | some e => wrapFinal required e.data
    | none =>
      match ref with
      | some refPath =>
        wrapFinal required
          (sanitize_class_name (lastSlashSegment refPath) (some (lastSlashSegment refPath)))
      | none =>
        if ty = some "array" then
          match items with
          | some it =>
            wrapFinal required ("List[".data ++ get_python_type it true fieldName ++ "]".data)
          | none => wrapFinal required ("List[".data ++ emptyItemsType fieldName ++ "]".data)
        else if nul || !required then
          "Optional[".data ++ get_base_type (.node ref ty fmt nul items) ++ "]".data
        else wrapFinal required (get_base_type (.node ref ty fmt nul items))
termination_by structural s => s

/-! ### RequirednessInferrer (`generate_models.py` lines 114-174 and 630-641) -/

/-- Source: `self.inferred_required_fields` (`generate_models.py` lines 117-174): the
curated allow-list of field names treated as required. -/
def inferred_required_fields : List String :=
  ["dataset", "documentId", "publishTime", "settlementDate", "settlementPeriod",
   "startTime", "timeFrom", "measurementTime", "createdDateTime",
   "halfHourEndTime", "messageReceivedDateTime", "documentRevisionNumber",
   "timeSeriesId", "mrid", "mRID", "createdTime",
   "settlementPeriodFrom", "settlementPeriodTo",
   "bmUnit", "nationalGridBmUnit", "nationalGridBmUnitId", "bmUnitType",
   "quantity", "generation", "demand", "price", "cost", "volume",
   "frequency", "temperature", "transmissionSystemDemand", "nationalDemand",
   "outputUsable", "margin", "surplus", "imbalance",
   "businessType", "psrType", "fuelType", "messageType", "processType",
   "warningType", "messageHeading", "eventType", "unavailabilityType",
   "assetType", "eventStatus", "amendmentFlag",
   "id", "acceptanceNumber", "pairId", "acceptanceId",
   "participantId", "assetId", "affectedUnit", "demandControlId",
   "bidId", "sequenceId", "messageId",
   "flowDirection", "tradeDirection",
   "marketAgreementType", "contractIdentification",
   "tradeQuantity", "tradePrice", "traderUnit",
   "normalCapacity", "availableCapacity", "unavailableCapacity",
   "eventStartTime", "eventEndTime", "acceptanceTime",
   "publishingPeriodCommencingTime",
   "affectedArea", "biddingZone", "systemZone", "interconnectorName",
   "forecastDate", "forecastWeek", "forecastYear", "weekStartDate",
   "calendarWeekNumber",
   "cause", "revisionNumber", "affectedDso",
   "instructionSequence", "demandControlEventFlag",
   "leadPartyName", "leadPartyId", "gspGroupId",
   "minimumPossible", "maximumAvailable",
   "amount", "energyPrice", "procurementPrice"]

/-- The per-field part of `generate_model` (`generate_models.py` lines 630-641):
requiredness combines the schema's `required` list with the inferred
allow-list; for inferred-required fields the nullable flag is overridden on a
copy of the node before type resolution. -/
def resolveFieldType (fieldName : String) (fieldSchema : SchemaNode)
    (required_fields : List String) : List Char :=
  let is_required := required_fields.contains fieldName
      || inferred_required_fields.contains fieldName
  let fs :=
    if inferred_required_fields.contains fieldName then fieldSchema.withNullableFalse
    else fieldSchema
  get_python_type fs is_required (some fieldName)

/-! ### ModelGenerator class-name collision handling
(`generate_model`, `generate_models.py` lines 575-588) -/

/-- Run-scoped collision-tracking state: `self.generated_models` (a set,
modelled as the list of names added so far) and `self.class_name_counts`. -/
structure GenState where
  generated : List (List Char)
  counts : List (List Char × Nat)

/-- Python dict assignment `counts[k] = n`: replace or insert. -/
def updCount : List (List Char × Nat) → List Char → Nat → List (List Char × Nat)
  | [], k, n => [(k, n)]
  | (k', v) :: r, k, n => if k' = k then (k, n) :: r else (k', v) :: updCount r k n

/-- Collision resolution of `generate_model` (`generate_models.py` lines 575-588):
a base name already emitted gets suffix `_c` where `c` is the incremented
per-base counter (first collision stores 1). -/
def generate_model_name (st : GenState) (base : List Char) : List Char × GenState :=
  if base ∈ st.generated then
    let c :=
      match st.counts.lookup base with
      | none => 1
      | some k => k + 1
    let newName := base ++ '_' :: (Nat.repr c).data
    (newName, ⟨st.generated ++ [newName], updCount st.counts base c⟩)
  else (base, ⟨st.generated ++ [base], st.counts⟩)

/-- One schema processed: sanitize the raw name (with `original_name=name` as
in `generate_model` line 575), resolve collisions, record the emitted name. -/
def modelNamesStep (acc : List (List Char) × GenState) (nm : List Char) :
    List (List Char) × GenState :=
  let r := generate_model_name acc.2 (sanitize_class_name nm (some nm))
  (acc.1 ++ [r.1], r.2)

/-- Class names assigned to a run of schemas processed in order. -/
def generate_model_names (rawNames : List (List Char)) : List (List Char) :=
  (rawNames.foldl modelNamesStep ([], ⟨[], []⟩)).1

/-! ### Top-level array unwrapping (`main`, `generate_models.py` lines 774-781;
the same logic appears in `generate_client.py` lines 456-463) -/

/-- Shape of the loaded JSON document as far as `main` inspects it: either a
non-array JSON value (tagged abstractly) or an array of such values. -/
inductive SpecDoc where
  | obj (tag : Nat)
  | arr (elems : List SpecDoc)

/-- The wrapper-handling block of `main`: an array is replaced by its first
element when non-empty, an empty array aborts the run (`return 1`, modelled as
`none`); non-array documents pass through. -/
def unwrap_spec : SpecDoc → Option SpecDoc
  | .arr [] => none
  | .arr (e :: _) => some e
  | .obj t => some (.obj t)

/-!
## Theorems

Claim theorems are named after the behaviour they settle; helper lemmas come
first.
-/

/-- C10: the two class-name sanitizers are extensionally equal — for every
input name, `PydanticModelGenerator.sanitize_class_name` with its default
`original_name` returns the same string as
`ClientCodeGenerator._sanitize_class_name`, so response-model names referenced
by generated client methods coincide with the model generator's class names. -/
theorem class_name_sanitizers_agree :
    ∀ nm : List Char, sanitize_class_name nm none = client_sanitize_class_name nm :=
  fun _ => rfl

/-- C5 evaluation: on the input `"!1abc"` (which contains characters outside
the word class) both sanitizers return `"1abc"`, whose first character is a
digit — the leading-digit guard of `sanitize_class_name` runs before leading
underscores are stripped, and `sanitize_field_name` has no such guard at all,
contradicting their own docstrings ("valid Python class name" / "valid Python
identifier"). -/
theorem sanitize_leading_digit_bug :
    sanitize_class_name "!1abc".data none = "1abc".data ∧
    sanitize_field_name "!1abc".data = "1abc".data ∧
    isDigitA '1' = true := by decide

/-- C6 evaluation: `sanitize_field_name "from"` returns `"from"` itself — the
keyword suffix `_` appended at lines 250-251 is removed again by the final
`strip("_")` at line 256, so the returned identifier is exactly the reserved
keyword, contradicting the "Python keywords need underscore suffix" intent. -/
theorem keyword_suffix_stripped_bug :
    sanitize_field_name "from".data = "from".data ∧ "from".data ∈ python_keywords := by
  decide

/-- C7 counterexample: a two-element array input is not treated as an error —
`main` unwraps it to its first element and proceeds. -/
theorem unwrap_multi_element_not_error :
    unwrap_spec (.arr [.obj 0, .obj 1]) = some (.obj 0) ∧
    unwrap_spec (.arr [.obj 0, .obj 1]) ≠ none :=
  ⟨rfl, fun h => Option.noConfusion h⟩

/-- C7 amended: a single-element array is unwrapped to its element and an empty
array is a fatal error with no output, but any non-empty array (including
multi-element ones) is unwrapped to its first element rather than rejected;
non-array documents pass through unchanged. -/
theorem unwrap_spec_behaviour :
    (∀ e es, unwrap_spec (.arr (e :: es)) = some e) ∧
    unwrap_spec (.arr []) = none ∧
    (∀ t, unwrap_spec (.obj t) = some (.obj t)) :=
  ⟨fun _ _ => rfl, rfl, fun _ => rfl⟩

/-- C2 counterexample: for the property set
`settlementDate, settlementPeriod, price` the field `price` is claimed by the
single-field `PriceFields` structural mixin (it is in `fields_to_skip`), so it
is not emitted as an own FieldSpec — the model has no own fields at all. -/
theorem price_claimed_counterexample :
    "price" ∈ (detect_mixins ["settlementDate", "settlementPeriod", "price"]).2 ∧
    own_field_names ["settlementDate", "settlementPeriod", "price"] = [] := by decide

/-- C2 amended: for a schema with properties exactly
`settlementDate, settlementPeriod, price`, the structural `SettlementFields`
mixin claims the first two, the structural single-field `PriceFields` mixin
claims `price` (leaving no own FieldSpec), and the behavioral `PriceMixin` is
additionally attached without claiming any field. -/
theorem settlement_price_model_shape :
    detect_mixins ["settlementDate", "settlementPeriod", "price"] =
      (["SettlementFields", "PriceFields", "PriceMixin"],
       ["settlementDate", "settlementPeriod", "price"]) ∧
    own_field_names ["settlementDate", "settlementPeriod", "price"] = [] := by decide

/-- C1 counterexample: for the property set `startTime, endTime` no time-range
mixin is applied (the time-range group is keyed on `timeFrom`/`timeTo`):
`startTime` alone is claimed by the single-field `StartTimeFields` mixin while
`endTime` stays an own FieldSpec. -/
theorem start_end_time_counterexample :
    "TimeRangeFields" ∉ (detect_mixins ["startTime", "endTime"]).1 ∧
    "endTime" ∉ (detect_mixins ["startTime", "endTime"]).2 ∧
    "endTime" ∈ own_field_names ["startTime", "endTime"] := by decide

/-- Helper: a fold whose step only appends to the accumulator preserves
membership in both components. -/
theorem foldl_pair_mono {β : Type}
    (f : List String × List String → β → List String × List String)
    (hf : ∀ acc e, (∀ x, x ∈ acc.1 → x ∈ (f acc e).1) ∧
      (∀ x, x ∈ acc.2 → x ∈ (f acc e).2)) (l : List β) :
    ∀ (acc : List String × List String) (x : String),
      (x ∈ acc.1 → x ∈ (l.foldl f acc).1) ∧ (x ∈ acc.2 → x ∈ (l.foldl f acc).2) := by
  induction l with
  | nil => intro acc x; exact ⟨id, id⟩
  | cons e t ih =>
    intro acc x
    refine ⟨fun hx => ?_, fun hx => ?_⟩
    · exact (ih (f acc e) x).1 ((hf acc e).1 x hx)
    · exact (ih (f acc e) x).2 ((hf acc e).2 x hx)

/-- Helper: `comboStep` only appends. -/
theorem comboStep_mono (props : List String) (acc : List String × List String)
    (e : List String × String) :
    (∀ x, x ∈ acc.1 → x ∈ (comboStep props acc e).1) ∧
    (∀ x, x ∈ acc.2 → x ∈ (comboStep props acc e).2) := by
  unfold comboStep
  split
  · exact ⟨fun x hx => List.mem_append_left _ hx, fun x hx => List.mem_append_left _ hx⟩
  · exact ⟨fun x hx => hx, fun x hx => hx⟩

/-- Helper: `singleStep` only appends. -/
theorem singleStep_mono (props : List String) (acc : List String × List String)
    (e : String × String) :
    (∀ x, x ∈ acc.1 → x ∈ (singleStep props acc e).1) ∧
    (∀ x, x ∈ acc.2 → x ∈ (singleStep props acc e).2) := by
  unfold singleStep
  split
  · exact ⟨fun x hx => List.mem_append_left _ hx, fun x hx => List.mem_append_left _ hx⟩
  · exact ⟨fun x hx => hx, fun x hx => hx⟩

/-- C1 amended: the time-range field-mixin group is keyed on
`timeFrom`/`timeTo` (not `startTime`/`endTime`).  For every schema whose
property set contains both `timeFrom` and `timeTo`, `_detect_mixins` claims
both fields under the `TimeRangeFields` group and neither is emitted as a
standalone FieldSpec. -/
theorem time_range_mixin_claims (props : List String)
    (h1 : "timeFrom" ∈ props) (h2 : "timeTo" ∈ props) :
    "TimeRangeFields" ∈ (detect_mixins props).1 ∧
    "timeFrom" ∈ (detect_mixins props).2 ∧
    "timeTo" ∈ (detect_mixins props).2 ∧
    "timeFrom" ∉ own_field_names props ∧
    "timeTo" ∉ own_field_names props := by
  have hcond : (List.all ["timeFrom", "timeTo"] fun f => props.contains f) = true := by
    simp only [List.all_eq_true]
    intro x hx
    simp only [List.mem_cons, List.not_mem_nil, or_false] at hx
    rcases hx with rfl | rfl <;> simpa
  set f := comboStep props with hf
  set acc1 := f ([], []) (["settlementDate", "settlementPeriod"], "SettlementFields")
    with hacc1
  have hacc2 : f acc1 (["timeFrom", "timeTo"], "TimeRangeFields") =
      (acc1.1 ++ ["TimeRangeFields"], acc1.2 ++ ["timeFrom", "timeTo"]) := by
    rw [hf]; unfold comboStep; rw [if_pos hcond]
  have hs1 : field_mixin_map.foldl f ([], []) =
      List.foldl f (f acc1 (["timeFrom", "timeTo"], "TimeRangeFields"))
        [(["levelFrom", "levelTo"], "LevelRangeFields"),
         (["bmUnit", "nationalGridBmUnit"], "BmUnitFields"),
         (["documentId", "documentRevisionNumber"], "DocumentFields")] := rfl
  have hmem1 : "TimeRangeFields" ∈ (field_mixin_map.foldl f ([], [])).1 := by
    rw [hs1, hacc2]
    exact (foldl_pair_mono f (comboStep_mono props) _ _ _).1
      (List.mem_append_right _ (List.mem_singleton_self _))
  have hmem2 : "timeFrom" ∈ (field_mixin_map.foldl f ([], [])).2 := by
    rw [hs1, hacc2]
    exact (foldl_pair_mono f (comboStep_mono props) _ _ _).2
      (List.mem_append_right _ (by simp))
  have hmem3 : "timeTo" ∈ (field_mixin_map.foldl f ([], [])).2 := by
    rw [hs1, hacc2]
    exact (foldl_pair_mono f (comboStep_mono props) _ _ _).2
      (List.mem_append_right _ (by simp))
  have hD : detect_mixins props =
      (let s2 := single_field_mixin_map.foldl (singleStep props)
        (field_mixin_map.foldl f ([], []))
      (s2.1 ++ behavioral_mixins props s2.2, s2.2)) := rfl
  have hsm := foldl_pair_mono (singleStep props) (singleStep_mono props)
    single_field_mixin_map (field_mixin_map.foldl f ([], []))
  have hm1 : "TimeRangeFields" ∈ (detect_mixins props).1 := by
    rw [hD]
    exact List.mem_append_left _ ((hsm "TimeRangeFields").1 hmem1)
  have hm2 : "timeFrom" ∈ (detect_mixins props).2 := by
    rw [hD]
    exact (hsm "timeFrom").2 hmem2
  have hm3 : "timeTo" ∈ (detect_mixins props).2 := by
    rw [hD]
    exact (hsm "timeTo").2 hmem3
  refine ⟨hm1, hm2, hm3, fun hcontra => ?_, fun hcontra => ?_⟩
  · have := (List.mem_filter.mp hcontra).2
    simp only [List.elem_eq_mem, Bool.not_eq_true', decide_eq_false_iff_not] at this
    exact this hm2
  · have := (List.mem_filter.mp hcontra).2
    simp only [List.elem_eq_mem, Bool.not_eq_true', decide_eq_false_iff_not] at this
    exact this hm3

/-- C1 amended witness at the concrete property set `timeFrom, timeTo`. -/
theorem time_range_mixin_claims_witness :
    "TimeRangeFields" ∈ (detect_mixins ["timeFrom", "timeTo"]).1 ∧
    "timeFrom" ∈ (detect_mixins ["timeFrom", "timeTo"]).2 ∧
    "timeTo" ∈ (detect_mixins ["timeFrom", "timeTo"]).2 ∧
    "timeFrom" ∉ own_field_names ["timeFrom", "timeTo"] ∧
    "timeTo" ∉ own_field_names ["timeFrom", "timeTo"] :=
  time_range_mixin_claims ["timeFrom", "timeTo"] (by decide) (by decide)

/-- Helper: folds of `comboStep`/`singleStep` only ever add property names to
the skip set. -/
theorem foldl_skip_subset {β : Type} (props : List String)
    (f : List String × List String → β → List String × List String)
    (hf : ∀ acc e, (∀ x ∈ acc.2, x ∈ props) → ∀ x ∈ (f acc e).2, x ∈ props)
    (l : List β) :
    ∀ acc, (∀ x ∈ acc.2, x ∈ props) → ∀ x ∈ (l.foldl f acc).2, x ∈ props := by
  induction l with
  | nil => intro acc h; exact h
  | cons e t ih => intro acc h; exact ih (f acc e) (hf acc e h)

/-- Every claimed (`fields_to_skip`) name comes from the property set. -/
theorem detect_mixins_skip_subset (props : List String) :
    ∀ x ∈ (detect_mixins props).2, x ∈ props := by
  have hcombo : ∀ acc e, (∀ x ∈ acc.2, x ∈ props) →
      ∀ x ∈ (comboStep props acc e).2, x ∈ props := by
    intro acc e h x hx
    unfold comboStep at hx
    by_cases hall : (e.1.all fun f => props.contains f) = true
    · rw [if_pos hall] at hx
      rcases List.mem_append.mp hx with hx | hx
      · exact h x hx
      · simpa using List.all_eq_true.mp hall x hx
    · rw [if_neg hall] at hx
      exact h x hx
  have hsingle : ∀ acc e, (∀ x ∈ acc.2, x ∈ props) →
      ∀ x ∈ (singleStep props acc e).2, x ∈ props := by
    intro acc e h x hx
    unfold singleStep at hx
    by_cases hcond : (props.contains e.1 && !acc.2.contains e.1) = true
    · rw [if_pos hcond] at hx
      rcases List.mem_append.mp hx with hx | hx
      · exact h x hx
      · have h1 : props.contains e.1 = true := (Bool.and_eq_true _ _ ▸ hcond).1
        rcases List.mem_singleton.mp hx with rfl
        simpa using h1
    · rw [if_neg hcond] at hx
      exact h x hx
  intro x hx
  have : (detect_mixins props).2 =
      (single_field_mixin_map.foldl (singleStep props)
        (field_mixin_map.foldl (comboStep props) ([], []))).2 := rfl
  rw [this] at hx
  exact foldl_skip_subset props (singleStep props) hsingle single_field_mixin_map
    (field_mixin_map.foldl (comboStep props) ([], []))
    (foldl_skip_subset props (comboStep props) hcombo field_mixin_map ([], [])
      (fun x hx => absurd hx (List.not_mem_nil x)))
    x hx

/-- C8: for every schema with a non-empty property map, the claimed field
names together with the own FieldSpec names partition the property set — no
property is dropped and none appears in both. -/
theorem fields_partition (props : List String) (f : String) (_hne : props ≠ []) :
    (f ∈ props ↔ f ∈ (detect_mixins props).2 ∨ f ∈ own_field_names props) ∧
    ¬(f ∈ (detect_mixins props).2 ∧ f ∈ own_field_names props) := by
  constructor
  · constructor
    · intro hf
      by_cases hs : f ∈ (detect_mixins props).2
      · exact Or.inl hs
      · refine Or.inr ?_
        rw [own_field_names, List.mem_filter]
        refine ⟨hf, ?_⟩
        simpa using hs
    · rintro (hs | ho)
      · exact detect_mixins_skip_subset props f hs
      · exact (List.mem_filter.mp ho).1
  · rintro ⟨hs, ho⟩
    have hno := (List.mem_filter.mp ho).2
    simp only [List.elem_eq_mem, Bool.not_eq_true', decide_eq_false_iff_not] at hno
    exact hno hs

/-- C8 witness at the concrete one-property schema `price`. -/
theorem fields_partition_witness :
    (("price" : String) ∈ ["price"] ↔
      "price" ∈ (detect_mixins ["price"]).2 ∨ "price" ∈ own_field_names ["price"]) ∧
    ¬("price" ∈ (detect_mixins ["price"]).2 ∧ "price" ∈ own_field_names ["price"]) :=
  fields_partition ["price"] "price" (by decide)

/-- C4 counterexample: two distinct raw names that sanitize to the same base
(`"Foo"` and `"Foo!"`) produce the names `Foo` and `Foo_1` — the numeric
suffix sequence starts at `_1`, not `_2` (lines 582-586 store 1 on the first
collision). -/
theorem numeric_suffix_counterexample :
    generate_model_names ["Foo".data, "Foo!".data] = ["Foo".data, "Foo_1".data] ∧
    "Foo_1".data ≠ "Foo_2".data := by decide

/-- C4 amended: for distinct raw names sanitizing to the same base identifier,
the emitted class names are pairwise distinct, the first-seen schema keeps the
unsuffixed (or wrapper-suffixed) name, and each later duplicate receives a
run-scoped numeric suffix drawn from the sequence `_1`, `_2`, ... in
first-seen order. -/
theorem later_duplicates_numbered (r1 r2 r3 b : List Char)
    (_h12 : r1 ≠ r2) (_h13 : r1 ≠ r3) (_h23 : r2 ≠ r3)
    (hb1 : sanitize_class_name r1 (some r1) = b)
    (hb2 : sanitize_class_name r2 (some r2) = b)
    (hb3 : sanitize_class_name r3 (some r3) = b) :
    generate_model_names [r1, r2, r3] = [b, b ++ '_' :: ['1'], b ++ '_' :: ['2']] ∧
    b ≠ b ++ '_' :: ['1'] ∧ b ≠ b ++ '_' :: ['2'] ∧
    b ++ '_' :: ['1'] ≠ b ++ '_' :: ['2'] := by
  have e1 : generate_model_name ⟨[], []⟩ b = (b, ⟨[b], []⟩) := by
    unfold generate_model_name
    rw [if_neg (List.not_mem_nil b)]
    rfl
  have e2 : generate_model_name ⟨[b], []⟩ b =
      (b ++ '_' :: ['1'], ⟨[b, b ++ '_' :: ['1']], [(b, 1)]⟩) := by
    unfold generate_model_name
    rw [if_pos (List.mem_singleton_self b)]
    show (b ++ '_' :: (Nat.repr 1).data, _) = _
    norm_num
    exact ⟨by decide, rfl⟩
  have hlk : List.lookup b [(b, 1)] = some 1 := by
    simp [List.lookup]
  have e3 : generate_model_name ⟨[b, b ++ '_' :: ['1']], [(b, 1)]⟩ b =
      (b ++ '_' :: ['2'],
       ⟨[b, b ++ '_' :: ['1'], b ++ '_' :: ['2']], [(b, 2)]⟩) := by
    unfold generate_model_name
    rw [if_pos (List.mem_cons_self b _), hlk]
    show (b ++ '_' :: (Nat.repr 2).data, _) = _
    norm_num
    exact ⟨by decide, by simp [updCount]⟩
  have s1 : modelNamesStep ([], ⟨[], []⟩) r1 = ([b], ⟨[b], []⟩) := by
    unfold modelNamesStep
    rw [hb1, e1]
    rfl
  have s2 : modelNamesStep ([b], ⟨[b], []⟩) r2 =
      ([b, b ++ '_' :: ['1']], ⟨[b, b ++ '_' :: ['1']], [(b, 1)]⟩) := by
    unfold modelNamesStep
    rw [hb2, e2]
    rfl
  have s3 : modelNamesStep ([b, b ++ '_' :: ['1']],
      ⟨[b, b ++ '_' :: ['1']], [(b, 1)]⟩) r3 =
      ([b, b ++ '_' :: ['1'], b ++ '_' :: ['2']],
       ⟨[b, b ++ '_' :: ['1'], b ++ '_' :: ['2']], [(b, 2)]⟩) := by
    unfold modelNamesStep
    rw [hb3, e3]
    rfl
  have hrun : generate_model_names [r1, r2, r3] =
      [b, b ++ '_' :: ['1'], b ++ '_' :: ['2']] := by
    have : generate_model_names [r1, r2, r3] =
        (modelNamesStep (modelNamesStep (modelNamesStep ([], ⟨[], []⟩) r1) r2) r3).1 :=
      rfl
    rw [this, s1, s2, s3]
  have hne1 : b ≠ b ++ '_' :: ['1'] := by
    intro h
    have := congrArg List.length h
    simp at this
  have hne2 : b ≠ b ++ '_' :: ['2'] := by
    intro h
    have := congrArg List.length h
    simp at this
  have hne3 : b ++ '_' :: ['1'] ≠ b ++ '_' :: ['2'] := by
    intro h
    have := congrArg (List.drop b.length) h
    rw [List.drop_left, List.drop_left] at this
    simp at this
  exact ⟨hrun, hne1, hne2, hne3⟩

/-- C4 amended witness: the run `Foo`, `Foo!`, `Foo!!` (all sanitizing to base
`Foo`) emits `Foo`, `Foo_1`, `Foo_2`. -/
theorem later_duplicates_numbered_witness :
    generate_model_names ["Foo".data, "Foo!".data, "Foo!!".data] =
      ["Foo".data, "Foo".data ++ '_' :: ['1'], "Foo".data ++ '_' :: ['2']] ∧
    "Foo".data ≠ "Foo".data ++ '_' :: ['1'] ∧
    "Foo".data ≠ "Foo".data ++ '_' :: ['2'] ∧
    "Foo".data ++ '_' :: ['1'] ≠ "Foo".data ++ '_' :: ['2'] :=
  later_duplicates_numbered "Foo".data "Foo!".data "Foo!!".data "Foo".data
    (by decide) (by decide) (by decide) (by decide) (by decide) (by decide)

/-- Members of `collapseU l` come from `l`. -/
theorem mem_collapseU : ∀ (l : List Char) (c : Char), c ∈ collapseU l → c ∈ l := by
  intro l
  induction l with
  | nil => intro c hc; simp [collapseU] at hc
  | cons c1 rest ih =>
    cases rest with
    | nil => intro c hc; simpa [collapseU] using hc
    | cons c2 r =>
      intro c hc
      unfold collapseU at hc
      by_cases h : (c1 = '_' && c2 = '_') = true
      · rw [if_pos h] at hc
        exact List.mem_cons_of_mem _ (ih c hc)
      · rw [if_neg h] at hc
        rcases List.mem_cons.mp hc with rfl | hc
        · exact List.mem_cons_self _ _
        · exact List.mem_cons_of_mem _ (ih c hc)

/-- Members of `stripL l` come from `l`. -/
theorem mem_stripL : ∀ (l : List Char) (c : Char), c ∈ stripL l → c ∈ l := by
  intro l
  induction l with
  | nil => intro c hc; simp [stripL] at hc
  | cons c1 rest ih =>
    intro c hc
    unfold stripL at hc
    by_cases h : c1 = '_'
    · rw [if_pos h] at hc
      exact List.mem_cons_of_mem _ (ih c hc)
    · rw [if_neg h] at hc
      exact hc

/-- Members of `stripU l` come from `l`. -/
theorem mem_stripU (l : List Char) (c : Char) (hc : c ∈ stripU l) : c ∈ l := by
  unfold stripU at hc
  rw [List.mem_reverse] at hc
  have := mem_stripL _ _ hc
  rw [List.mem_reverse] at this
  exact mem_stripL _ _ this

/-- Every character of `classNameCore` output is a word character. -/
theorem classNameCore_chars (nm : List Char) :
    ∀ c ∈ classNameCore nm, isWordChar c = true := by
  intro c hc
  have hmodel : ∀ x ∈ "Model_".data, isWordChar x = true := by decide
  have hmap : ∀ x ∈ (lastDotSegment nm).map (fun c => if isWordChar c then c else '_'),
      isWordChar x = true := by
    intro x hx
    rcases List.mem_map.mp hx with ⟨a, _, rfl⟩
    by_cases h : isWordChar a = true
    · simp [h]
    · simp only [h, Bool.false_eq_true, if_false]
      decide
  simp only [classNameCore] at hc
  have hc4 := mem_stripU _ _ hc
  by_cases hd : headIsDigit (collapseU ((lastDotSegment nm).map
      (fun c => if isWordChar c then c else '_'))) = true
  · rw [if_pos hd] at hc4
    rcases List.mem_append.mp hc4 with hc4 | hc4
    · exact hmodel c hc4
    · exact hmap c (mem_collapseU _ _ hc4)
  · rw [if_neg hd] at hc4
    exact hmap c (mem_collapseU _ _ hc4)

/-- Every character of a `sanitize_class_name` result is a word character. -/
theorem sanitize_class_name_chars (nm : List Char) (o : Option (List Char)) :
    ∀ c ∈ sanitize_class_name nm o, isWordChar c = true := by
  intro c hc
  have hunnamed : ∀ x ∈ "UnnamedModel".data, isWordChar x = true := by decide
  have hsuf1 : ∀ x ∈ "_DatasetResponse".data, isWordChar x = true := by decide
  have hsuf2 : ∀ x ∈ "_ResponseWithMetadata".data, isWordChar x = true := by decide
  have hsuf3 : ∀ x ∈ "_Response".data, isWordChar x = true := by decide
  simp only [sanitize_class_name] at hc
  split at hc
  · exact hunnamed c hc
  · rcases List.mem_append.mp hc with hc | hc
    · exact classNameCore_chars nm c hc
    · unfold wrapperSuffix at hc
      split at hc
      · exact hsuf1 c hc
      · split at hc
        · exact hsuf2 c hc
        · split at hc
          · exact hsuf3 c hc
          · simp at hc

/-- Word-character strings never carry the `Optional[` prefix (they contain no
bracket). -/
theorem no_opt_of_words (l : List Char) (h : ∀ c ∈ l, isWordChar c = true) :
    (("Optional[".data).isPrefixOf l) = false := by
  by_contra hne
  have hpre : ("Optional[".data) <+: l :=
    List.isPrefixOf_iff_prefix.mp (by simpa using hne)
  have hbr : '[' ∈ l := hpre.subset (by decide)
  have := h '[' hbr
  simp [isWordChar, isUpperA, isLowerDigit] at this

/-- The enum table never yields a type with the `Optional[` prefix. -/
theorem field_to_enum_no_opt (fn : String) (e : String)
    (h : field_to_enum fn = some e) :
    (("Optional[".data).isPrefixOf e.data) = false := by
  unfold field_to_enum at h
  split at h <;> cases h <;> decide

/-- The enum-override wrapper inherits that property. -/
theorem enumOverride_no_opt (fn : Option String) (e : String)
    (h : enumOverride fn = some e) :
    (("Optional[".data).isPrefixOf e.data) = false := by
  rcases fn with _ | s
  · simp [enumOverride] at h
  · simp only [enumOverride] at h
    by_cases hs : s = ""
    · rw [if_pos hs] at h; cases h
    · rw [if_neg hs] at h; exact field_to_enum_no_opt s e h

/-- The base-type mapping never yields a type with the `Optional[` prefix. -/
theorem get_base_type_no_opt (s : SchemaNode) :
    (("Optional[".data).isPrefixOf (get_base_type s)) = false := by
  have htype : ∀ t : String,
      (("Optional[".data).isPrefixOf (((type_mapping t).getD "Any").data)) = false := by
    intro t
    unfold type_mapping
    split <;> decide
  have hfmt : ∀ f r : String, format_mapping f = some r →
      (("Optional[".data).isPrefixOf r.data) = false := by
    intro f r h
    unfold format_mapping at h
    split at h <;> cases h <;> decide
  rcases s with ⟨ref, ty, fmt, nul, items⟩
  simp only [get_base_type]
  rcases hbind : fmt.bind format_mapping with _ | r
  · simp only [hbind]
    exact htype _
  · simp only [hbind]
    rcases fmt with _ | f
    · cases hbind
    · exact hfmt f r hbind

/-- Helper: `wrapFinal` is the identity for required fields. -/
theorem wrapFinal_true (th : List Char) : wrapFinal true th = th := by
  simp [wrapFinal]

/-- A `List[` type expression never carries the `Optional[` prefix. -/
theorem list_type_no_opt (rest : List Char) :
    (("Optional[".data).isPrefixOf ("List[".data ++ rest)) = false := by
  show List.isPrefixOf ('O' :: "ptional[".data) ('L' :: ("ist[".data ++ rest)) = false
  simp [List.isPrefixOf]

/-- Required non-nullable schema nodes always resolve to a non-Optional type
expression. -/
theorem get_python_type_required_not_opt (s : SchemaNode) (fn : Option String)
    (hnul : s.nullable = false) :
    (("Optional[".data).isPrefixOf (get_python_type s true fn)) = false := by
  rcases s with ⟨ref, ty, fmt, nul, items⟩
  simp only [SchemaNode.nullable] at hnul
  subst hnul
  rcases henum : enumOverride fn with _ | e
  · rcases ref with _ | rp
    · by_cases hty : ty = some "array"
      · subst hty
        rcases items with _ | it
        · have heq : get_python_type (.node none (some "array") fmt false none) true fn =
              wrapFinal true ("List[".data ++ emptyItemsType fn ++ "]".data) := by
            simp only [get_python_type, henum]
            exact if_pos trivial
          rw [heq, wrapFinal_true]
          exact list_type_no_opt _
        · have heq : get_python_type (.node none (some "array") fmt false (some it)) true fn =
              wrapFinal true ("List[".data ++ get_python_type it true fn ++ "]".data) := by
            simp only [get_python_type, henum]
            exact if_pos trivial
          rw [heq, wrapFinal_true]
          exact list_type_no_opt _
      · rcases items with _ | it
        · have heq : get_python_type (.node none ty fmt false none) true fn =
              wrapFinal true (get_base_type (.node none ty fmt false none)) := by
            simp only [get_python_type, henum]
            rw [if_neg hty, if_neg (by decide)]
          rw [heq, wrapFinal_true]
          exact get_base_type_no_opt _
        · have heq : get_python_type (.node none ty fmt false (some it)) true fn =
              wrapFinal true (get_base_type (.node none ty fmt false (some it))) := by
            simp only [get_python_type, henum]
            rw [if_neg hty, if_neg (by decide)]
          rw [heq, wrapFinal_true]
          exact get_base_type_no_opt _
    · have heq : get_python_type (.node (some rp) ty fmt false items) true fn =
          wrapFinal true
            (sanitize_class_name (lastSlashSegment rp) (some (lastSlashSegment rp))) := by
        simp only [get_python_type, henum]
      rw [heq, wrapFinal_true]
      exact no_opt_of_words _ (sanitize_class_name_chars _ _)
  · rcases ref with _ | rp
    · rcases items with _ | it
      · have heq : get_python_type (.node none ty fmt false none) true fn =
            wrapFinal true e.data := by
          simp only [get_python_type, henum]
        rw [heq, wrapFinal_true]
        exact enumOverride_no_opt fn e henum
      · have heq : get_python_type (.node none ty fmt false (some it)) true fn =
            wrapFinal true e.data := by
          simp only [get_python_type, henum]
        rw [heq, wrapFinal_true]
        exact enumOverride_no_opt fn e henum
    · have heq : get_python_type (.node (some rp) ty fmt false items) true fn =
          wrapFinal true e.data := by
        simp only [get_python_type, henum]
      rw [heq, wrapFinal_true]
      exact enumOverride_no_opt fn e henum

/-- C3: for every field in the curated inferred-required allow-list, whatever
the declared schema (including `nullable: true`), the emitted type expression
is non-Optional: requiredness is forced and `nullable` is overridden on a copy
of the node before type resolution. -/
theorem inferred_required_non_optional (fieldName : String) (s : SchemaNode)
    (R : List String) (h : fieldName ∈ inferred_required_fields) :
    (("Optional[".data).isPrefixOf (resolveFieldType fieldName s R)) = false := by
  have hc : inferred_required_fields.contains fieldName = true := by simpa using h
  have hnul : (SchemaNode.withNullableFalse s).nullable = false := by
    rcases s with ⟨r, t, f, n, i⟩; rfl
  have heq : resolveFieldType fieldName s R =
      get_python_type s.withNullableFalse true (some fieldName) := by
    unfold resolveFieldType
    rw [hc, Bool.or_true]
    simp
  rw [heq]
  exact get_python_type_required_not_opt _ _ hnul

/-- C3 witness: the allow-listed field `publishTime` declared as a nullable
date-time string still resolves to the bare `datetime`. -/
theorem inferred_required_non_optional_witness :
    (("Optional[".data).isPrefixOf (resolveFieldType "publishTime"
      (.node none (some "string") (some "date-time") true none) [])) = false :=
  inferred_required_non_optional "publishTime"
    (.node none (some "string") (some "date-time") true none) [] (by decide)

/-! ### Idempotence of the field-name sanitizer -/

/-- Absence of adjacent underscores. -/
def noDub (l : List Char) : Prop :=
  List.Chain' (fun a b => ¬(a = '_' ∧ b = '_')) l

/-- Characterisation of a `sanitize_field_name` output: only `[a-z0-9_]`
characters, no doubled or leading or trailing underscore, non-empty. -/
def validOut (y : List Char) : Prop :=
  (∀ c ∈ y, isValidLower c = true) ∧ noDub y ∧ y ≠ [] ∧
  y.head? ≠ some '_' ∧ y.getLast? ≠ some '_'

/-- Valid field-name characters are never uppercase. -/
theorem isUpperA_eq_false_of_valid (c : Char) (h : isValidLower c = true) :
    isUpperA c = false := by
  cases h' : isUpperA c
  · rfl
  · exfalso
    simp only [isValidLower, isLowerDigit, Bool.or_eq_true, Bool.and_eq_true,
      decide_eq_true_eq] at h
    simp only [isUpperA, Bool.and_eq_true, decide_eq_true_eq] at h'
    omega

/-- The invalid-character replacement only produces valid characters. -/
theorem map_inval_valid (x : List Char) (c : Char)
    (hc : c ∈ x.map (fun c => if isValidLower c then c else '_')) :
    isValidLower c = true := by
  rcases List.mem_map.mp hc with ⟨a, _, rfl⟩
  by_cases h : isValidLower a = true
  · simp [h]
  · simp only [h, Bool.false_eq_true, if_false]
    decide

/-- Helper: `camelSub` is the identity on strings without uppercase characters. -/
theorem camelSub_fixed : ∀ l : List Char,
    (∀ c ∈ l, isValidLower c = true) → camelSub l = l := by
  intro l
  induction l with
  | nil => intro _; rfl
  | cons c1 rest ih =>
    cases rest with
    | nil => intro _; rfl
    | cons c2 r =>
      intro hv
      have h2 : isUpperA c2 = false :=
        isUpperA_eq_false_of_valid c2 (hv c2 (by simp))
      simp only [camelSub, h2, Bool.and_false, Bool.false_eq_true, if_false]
      rw [ih (fun c hc => hv c (List.mem_cons_of_mem _ hc))]

/-- Helper: `pyLower` fixes valid field-name characters. -/
theorem pyLower_fixed (c : Char) (h : isValidLower c = true) : pyLower c = c := by
  unfold pyLower
  rw [isUpperA_eq_false_of_valid c h]
  simp

/-- Lowercasing is the identity on valid field-name strings. -/
theorem map_pyLower_fixed (l : List Char)
    (h : ∀ c ∈ l, isValidLower c = true) : l.map pyLower = l := by
  induction l with
  | nil => rfl
  | cons c r ih =>
    rw [List.map_cons, pyLower_fixed c (h c (List.mem_cons_self _ _)),
      ih (fun x hx => h x (List.mem_cons_of_mem _ hx))]

/-- Invalid-character replacement is the identity on valid strings. -/
theorem map_inval_fixed (l : List Char)
    (h : ∀ c ∈ l, isValidLower c = true) :
    l.map (fun c => if isValidLower c then c else '_') = l := by
  induction l with
  | nil => rfl
  | cons c r ih =>
    rw [List.map_cons, if_pos (h c (List.mem_cons_self _ _)),
      ih (fun x hx => h x (List.mem_cons_of_mem _ hx))]

/-- Helper: `collapseU` preserves the head character. -/
theorem head?_collapseU : ∀ l : List Char, (collapseU l).head? = l.head? := by
  intro l
  induction l with
  | nil => rfl
  | cons c1 rest ih =>
    cases rest with
    | nil => rfl
    | cons c2 r =>
      by_cases h : (c1 = '_' && c2 = '_') = true
      · simp only [collapseU, if_pos h]
        have h12 : c1 = '_' ∧ c2 = '_' := by simpa using h
        rw [ih, List.head?_cons, List.head?_cons, h12.1, h12.2]
      · simp only [collapseU, if_neg h, List.head?_cons]

/-- Helper: `collapseU` output never has doubled underscores. -/
theorem noDub_collapseU : ∀ l : List Char, noDub (collapseU l) := by
  intro l
  induction l with
  | nil => exact List.chain'_nil
  | cons c1 rest ih =>
    cases rest with
    | nil => exact List.chain'_singleton _
    | cons c2 r =>
      by_cases h : (c1 = '_' && c2 = '_') = true
      · simp only [collapseU, if_pos h]
        exact ih
      · simp only [collapseU, if_neg h]
        rw [noDub, List.chain'_cons']
        refine ⟨?_, ih⟩
        intro y hy
        rw [head?_collapseU, List.head?_cons] at hy
        have hy2 : c2 = y := by simpa using hy
        subst hy2
        intro hcontra
        rw [hcontra.1, hcontra.2] at h
        simp at h

/-- Tails of no-double-underscore strings keep the property. -/
theorem noDub_tail {c : Char} {l : List Char} (h : noDub (c :: l)) : noDub l :=
  (List.chain'_cons'.mp h).2

/-- Helper: `stripL` preserves `noDub`. -/
theorem noDub_stripL (l : List Char) (h : noDub l) : noDub (stripL l) := by
  induction l with
  | nil => simpa [stripL] using h
  | cons c r ih =>
    by_cases hc : c = '_'
    · simp only [stripL, if_pos hc]
      exact ih (noDub_tail h)
    · simp only [stripL, if_neg hc]
      exact h

/-- Reversal preserves `noDub` (the pair condition is symmetric). -/
theorem noDub_reverse (l : List Char) (h : noDub l) : noDub l.reverse := by
  rw [noDub, List.chain'_reverse]
  exact List.Chain'.imp (fun a b hab hba => hab ⟨hba.2, hba.1⟩) h

/-- Helper: `stripU` preserves `noDub`. -/
theorem noDub_stripU (l : List Char) (h : noDub l) : noDub (stripU l) := by
  unfold stripU
  exact noDub_reverse _ (noDub_stripL _ (noDub_reverse _ (noDub_stripL _ h)))

/-- Helper: `stripL` output never starts with an underscore. -/
theorem head?_stripL_ne (l : List Char) : (stripL l).head? ≠ some '_' := by
  induction l with
  | nil => simp [stripL]
  | cons c r ih =>
    by_cases h : c = '_'
    · simp only [stripL, if_pos h]
      exact ih
    · simp only [stripL, if_neg h, List.head?_cons]
      intro hc
      exact h (by simpa using hc)

/-- Helper: `stripL` preserves the last element when its output is non-empty. -/
theorem getLast?_stripL : ∀ l : List Char, stripL l ≠ [] →
    (stripL l).getLast? = l.getLast? := by
  intro l
  induction l with
  | nil => intro h; exact absurd rfl h
  | cons c r ih =>
    by_cases h : c = '_'
    · simp only [stripL, if_pos h]
      intro hne
      have hr : r ≠ [] := by
        intro h0
        rw [h0] at hne
        exact hne rfl
      rw [ih hne]
      cases r with
      | nil => exact absurd rfl hr
      | cons b t => rw [List.getLast?_cons_cons]
    · simp only [stripL, if_neg h]
      intro _
      trivial

/-- Helper: `stripL` is the identity when the head is not an underscore. -/
theorem stripL_eq_self (l : List Char) (h : l.head? ≠ some '_') : stripL l = l := by
  cases l with
  | nil => rfl
  | cons c r =>
    have hc : c ≠ '_' := by
      intro h0
      rw [List.head?_cons, h0] at h
      exact h rfl
    simp only [stripL, if_neg hc]

/-- Helper: `stripU` output never ends with an underscore. -/
theorem stripU_getLast_ne (l : List Char) : (stripU l).getLast? ≠ some '_' := by
  unfold stripU
  rw [List.getLast?_reverse]
  exact head?_stripL_ne _

/-- Helper: `stripU` output never starts with an underscore. -/
theorem stripU_head_ne (l : List Char) : (stripU l).head? ≠ some '_' := by
  unfold stripU
  rw [List.head?_reverse]
  by_cases hn : stripL ((stripL l).reverse) = []
  · rw [hn]
    simp
  · rw [getLast?_stripL _ hn, List.getLast?_reverse]
    exact head?_stripL_ne _

/-- Helper: `collapseU` is the identity on strings without doubled underscores. -/
theorem collapseU_eq_self : ∀ l : List Char, noDub l → collapseU l = l := by
  intro l
  induction l with
  | nil => intro _; rfl
  | cons c1 rest ih =>
    cases rest with
    | nil => intro _; rfl
    | cons c2 r =>
      intro h
      have hR : ¬(c1 = '_' ∧ c2 = '_') := (List.chain'_cons'.mp h).1 c2 rfl
      have hcond : (c1 = '_' && c2 = '_') = false := by
        by_cases h1 : c1 = '_'
        · by_cases h2 : c2 = '_'
          · exact absurd ⟨h1, h2⟩ hR
          · simp [h2]
        · simp [h1]
      simp only [collapseU, hcond, Bool.false_eq_true, if_false]
      rw [ih (noDub_tail h)]

/-- Helper: `stripU` is the identity when neither end is an underscore. -/
theorem stripU_eq_self (l : List Char) (h1 : l.head? ≠ some '_')
    (h2 : l.getLast? ≠ some '_') : stripU l = l := by
  unfold stripU
  rw [stripL_eq_self l h1]
  rw [stripL_eq_self l.reverse (by rw [List.head?_reverse]; exact h2)]
  exact List.reverse_reverse l

/-- Appending one underscore to a clean string keeps `noDub`. -/
theorem noDub_append_single (y : List Char) (h : noDub y)
    (hlast : y.getLast? ≠ some '_') : noDub (y ++ ['_']) := by
  rw [noDub, List.chain'_append]
  refine ⟨h, List.chain'_singleton _, ?_⟩
  intro x hx y' hy'
  intro hcontra
  rw [hcontra.1] at hx
  exact hlast (by simpa using hx)

/-- Stripping after appending one underscore recovers a clean string. -/
theorem stripU_append_underscore (y : List Char) (hne : y ≠ [])
    (hhead : y.head? ≠ some '_') (hlast : y.getLast? ≠ some '_') :
    stripU (y ++ ['_']) = y := by
  unfold stripU
  have h1 : stripL (y ++ ['_']) = y ++ ['_'] := by
    apply stripL_eq_self
    cases y with
    | nil => exact absurd rfl hne
    | cons a t => simpa using hhead
  rw [h1, List.reverse_append]
  have h2 : (['_'] : List Char).reverse ++ y.reverse = '_' :: y.reverse := rfl
  rw [h2]
  have h3 : stripL ('_' :: y.reverse) = stripL y.reverse := by
    simp [stripL]
  rw [h3, stripL_eq_self y.reverse (by rw [List.head?_reverse]; exact hlast)]
  exact List.reverse_reverse y

/-- Every `sanitize_field_name` output satisfies `validOut`. -/
theorem sanitize_field_name_valid (l : List Char) :
    validOut (sanitize_field_name l) := by
  simp only [sanitize_field_name]
  set M := ((camelSub l).map pyLower).map (fun c => if isValidLower c then c else '_')
    with hM
  set K := if M ∈ python_keywords then M ++ ['_'] else M with hK
  by_cases hemp : stripU (collapseU K) = []
  · rw [if_pos hemp]
    refine ⟨by decide, ?_, by decide, by decide, by decide⟩
    unfold noDub
    rw [List.chain'_cons, List.chain'_cons, List.chain'_cons, List.chain'_cons]
    exact ⟨by decide, by decide, by decide, by decide, List.chain'_singleton _⟩
  · rw [if_neg hemp]
    refine ⟨?_, noDub_stripU _ (noDub_collapseU _), hemp, stripU_head_ne _,
      stripU_getLast_ne _⟩
    intro c hc
    have hcK := mem_collapseU _ _ (mem_stripU _ _ hc)
    rw [hK] at hcK
    by_cases hkw : M ∈ python_keywords
    · rw [if_pos hkw] at hcK
      rcases List.mem_append.mp hcK with hcM | hcU
      · exact map_inval_valid _ c hcM
      · rcases List.mem_singleton.mp hcU with rfl
        decide
    · rw [if_neg hkw] at hcK
      exact map_inval_valid _ c hcK

/-- Helper: `sanitize_field_name` fixes every string satisfying `validOut`. -/
theorem sanitize_field_name_fixed (y : List Char) (h : validOut y) :
    sanitize_field_name y = y := by
  obtain ⟨hval, hnd, hne, hhead, hlast⟩ := h
  have hcam : camelSub y = y := camelSub_fixed y hval
  have hlow : y.map pyLower = y := map_pyLower_fixed y hval
  have hinv : y.map (fun c => if isValidLower c then c else '_') = y :=
    map_inval_fixed y hval
  simp only [sanitize_field_name, hcam, hlow, hinv]
  by_cases hkw : y ∈ python_keywords
  · rw [if_pos hkw]
    rw [collapseU_eq_self _ (noDub_append_single y hnd hlast)]
    rw [stripU_append_underscore y hne hhead hlast]
    rw [if_neg hne]
  · rw [if_neg hkw]
    rw [collapseU_eq_self _ hnd, stripU_eq_self y hhead hlast]
    rw [if_neg hne]

/-- C9: `sanitize_field_name` (`toFieldName`) is idempotent — applying it to
its own output returns the output unchanged, for every input string. -/
theorem sanitize_field_name_idempotent :
    ∀ l : List Char, sanitize_field_name (sanitize_field_name l) = sanitize_field_name l :=
  fun l => sanitize_field_name_fixed _ (sanitize_field_name_valid l)

end Balancing
